import Mathlib

/-!
Verification development for the P-V-NP repository: a shallow embedding of the
SAT playground (tokenizer, shunting-yard parser, RPN evaluator, brute-force
solver) and the subset-sum backtracking search from `docs/script.js` and
`docs/script.remade.js`, the `SearchSpace` factorial widget, and the
interactive `Graph` path-building component from the frontend sources.
-/

namespace PvNP

/-- Token kinds, mirroring `TOK = { VAR, NOT, AND, OR, LP, RP }` in
`docs/script.js`.  A variable token carries its digit 1..9 (the JS code
stores the string `x1`..`x9`). -/
inductive Tok where
  | var : Nat → Tok
  | not : Tok
  | and : Tok
  | or : Tok
  | lp : Tok
  | rp : Tok
deriving DecidableEq, Repr

/-- The distinct error messages thrown by the SAT parsing pipeline in
`docs/script.js` (and its copy in `docs/script.remade.js`):
`Invalid variable near position i`, `Unexpected character 'c' at position i`,
`Unbalanced parentheses`, `Parse error`, `Unknown token`, and the solve
handler's `No variables found`. -/
inductive ParseErr where
  | invalidVar : Nat → ParseErr
  | unexpectedChar : Char → Nat → ParseErr
  | unbalanced : ParseErr
  | stackErr : ParseErr
  | unknownTok : ParseErr
  | noVars : ParseErr
deriving DecidableEq, Repr

/-- Whether the error message identifies a position in the input: only the two
tokenizer errors interpolate the offending index `i` into their message. -/
def errHasPos : ParseErr → Bool
  | .invalidVar _ => true
  | .unexpectedChar _ _ => true
  | _ => false

/-- Test `/[1-9]/.test(c)` on a single character. -/
def isDigit19 (c : Char) : Bool := '1' ≤ c && c ≤ '9'

/-- Digit value of a character. -/
def digitVal (c : Char) : Nat := c.toNat - '0'.toNat

/-- The character loop of `tokenize` in `docs/script.js`, lines 54-75, running
over the whitespace-stripped source with `i` the current position.  On `x` it
inspects the next character and accepts only `1`..`9` (advancing by two);
any other character raises `Unexpected character`. -/
def tokenizeAux : List Char → Nat → Except ParseErr (List Tok)
  | [], _ => .ok []
  | c :: rest, i =>
    if c = '(' then (tokenizeAux rest (i + 1)).map (Tok.lp :: ·)
    else if c = ')' then (tokenizeAux rest (i + 1)).map (Tok.rp :: ·)
    else if c = '!' then (tokenizeAux rest (i + 1)).map (Tok.not :: ·)
    else if c = '&' then (tokenizeAux rest (i + 1)).map (Tok.and :: ·)
    else if c = '|' then (tokenizeAux rest (i + 1)).map (Tok.or :: ·)
    else if c = 'x' then
      match rest with
      | d :: rest' =>
        if isDigit19 d then (tokenizeAux rest' (i + 2)).map (Tok.var (digitVal d) :: ·)
        else .error (.invalidVar i)
      | [] => .error (.invalidVar i)
    else .error (.unexpectedChar c i)

/-- Embedding of `tokenize(expr)` from `docs/script.js`: strip whitespace
(`expr.replace(/\s+/g, '')`) then scan. -/
def tokenize (expr : String) : Except ParseErr (List Tok) :=
  tokenizeAux (expr.toList.filter (fun c => !c.isWhitespace)) 0

/-- Table PREC with NOT: 3, AND: 2, OR: 1; absent keys read as 0
(`PREC[top.t] || 0`). -/
def prec : Tok → Nat
  | .not => 3
  | .and => 2
  | .or => 1
  | _ => 0

/-- Table RIGHT_ASSOC marking only NOT; absent keys are falsy. -/
def rightAssoc : Tok → Bool
  | .not => true
  | _ => false

/-- The pop condition of the shunting-yard operator case:
`(RIGHT_ASSOC[tk.t] && pTk < pTop) || (!RIGHT_ASSOC[tk.t] && pTk <= pTop)`. -/
def shouldPop (tk top : Tok) : Bool :=
  (rightAssoc tk && decide (prec tk < prec top)) ||
  (!rightAssoc tk && decide (prec tk ≤ prec top))

/-- The inner `while` of the operator case in `toRPN`: pop operators from the
stack onto the output while the top is not `(` and the precedence condition
holds.  Returns the updated `(out, op)`. -/
def popOps (tk : Tok) : List Tok → List Tok → List Tok × List Tok
  | [], out => (out, [])
  | top :: restOp, out =>
    if top = Tok.lp then (out, top :: restOp)
    else if shouldPop tk top then popOps tk restOp (out ++ [top])
    else (out, top :: restOp)

/-- The `)` case of `toRPN`: pop to the output until a `(` is found and drop
it; `none` models the `Unbalanced parentheses` throw when no `(` remains. -/
def popToLP : List Tok → List Tok → Option (List Tok × List Tok)
  | [], _ => none
  | top :: restOp, out =>
    if top = Tok.lp then some (out, restOp)
    else popToLP restOp (out ++ [top])

/-- The final drain of `toRPN`: pop the remaining operator stack onto the
output, failing with `Unbalanced parentheses` if a parenthesis remains. -/
def drainOps : List Tok → List Tok → Except ParseErr (List Tok)
  | [], out => .ok out
  | top :: restOp, out =>
    if top = Tok.lp ∨ top = Tok.rp then .error .unbalanced
    else drainOps restOp (out ++ [top])

/-- The token loop of `toRPN` in `docs/script.js`, lines 80-113, with `out`
the output queue and `op` the operator stack (head = top of stack). -/
def toRPNAux : List Tok → List Tok → List Tok → Except ParseErr (List Tok)
  | [], out, op => drainOps op out
  | tk :: rest, out, op =>
    match tk with
    | .var v => toRPNAux rest (out ++ [Tok.var v]) op
    | .lp => toRPNAux rest out (Tok.lp :: op)
    | .rp =>
      match popToLP op out with
      | none => .error .unbalanced
      | some (out', op') => toRPNAux rest out' op'
    | opTk =>
      match popOps opTk op out with
      | (out', op') => toRPNAux rest out' (opTk :: op')

/-- Embedding of `toRPN(tokens)` from `docs/script.js` (shunting-yard). -/
def toRPN (tokens : List Tok) : Except ParseErr (List Tok) :=
  toRPNAux tokens [] []

/-- Balanced-parentheses check for a token stream: running depth never goes
negative and ends at zero.  This is the specification-side characterisation
of "unbalanced parentheses" against which `toRPN` is measured. -/
def parensOk : List Tok → Nat → Bool
  | [], d => d == 0
  | .lp :: rest, d => parensOk rest (d + 1)
  | .rp :: rest, d =>
    match d with
    | 0 => false
    | d' + 1 => parensOk rest d'
  | _ :: rest, d => parensOk rest d

/-- The stack loop of `evalRPN` in `docs/script.js`, lines 115-131; `st` is
the evaluation stack with head = top.  `env` maps variable digits to booleans
(`Boolean(env[tk.v])`, so unknown variables read `false`).  At the end the
stack must hold exactly one value (`Parse error` otherwise). -/
def evalAux : List Tok → (Nat → Bool) → List Bool → Except ParseErr Bool
  | [], _, st =>
    match st with
    | [b] => .ok b
    | _ => .error .stackErr
  | tk :: rest, env, st =>
    match tk with
    | .var v => evalAux rest env (env v :: st)
    | .not =>
      match st with
      | [] => .error .stackErr
      | b :: s => evalAux rest env ((!b) :: s)
    | .and =>
      match st with
      | b :: a :: s => evalAux rest env ((a && b) :: s)
      | _ => .error .stackErr
    | .or =>
      match st with
      | b :: a :: s => evalAux rest env ((a || b) :: s)
      | _ => .error .stackErr
    | _ => .error .unknownTok

/-- Embedding of `evalRPN(rpn, env)` from `docs/script.js`. -/
def evalRPN (rpn : List Tok) (env : Nat → Bool) : Except ParseErr Bool :=
  evalAux rpn env []

/-- Boolean form of "the formula evaluates to `true` under `env`". -/
def evalTrue (rpn : List Tok) (env : Nat → Bool) : Bool :=
  match evalRPN rpn env with
  | .ok true => true
  | _ => false

/-- The left-to-right non-overlapping scan of the regex `/x([1-9])/g` used by
`extractVars` in `docs/script.js`: each match is an `x` immediately followed
by a digit `1`..`9`, and scanning resumes after the match. -/
def extractScan : List Char → List Nat
  | [] => []
  | [_] => []
  | c :: d :: rest =>
    if c = 'x' && isDigit19 d then digitVal d :: extractScan rest
    else extractScan (d :: rest)

/-- Embedding of `extractVars(expr)` from `docs/script.js`: the distinct variables matched
by the regex, sorted ascending by index (`Array.from(set).sort(...)`). -/
def extractVars (expr : String) : List Nat :=
  (List.range' 1 9).filter (fun d => d ∈ extractScan expr.toList)

/-- The assignment built by the solve handler for counter value `mask`:
`env[names[i]] = !!(mask & (1 << i))`.  Variables outside `names` read
`undefined`, hence `false` (the `names` produced by `extractVars` are
distinct, so first index = the written index). -/
def envOfMask (names : List Nat) (mask : Nat) : Nat → Bool :=
  fun v => if v ∈ names then mask.testBit (names.indexOf v) else false

/-- The brute-force loop of the solve handler in `docs/script.js`, lines
187-192: starting at `mask` with `r` assignments left to try, increment
`checked` and evaluate; stop at the first satisfying assignment.  Returns the
found mask (if any) together with the final `checked` counter. -/
def solveLoop (rpn : List Tok) (names : List Nat) :
    Nat → Nat → Nat → Except ParseErr (Option Nat × Nat)
  | _, 0, checked => .ok (none, checked)
  | mask, r + 1, checked =>
    match evalRPN rpn (envOfMask names mask) with
    | .error e => .error e
    | .ok true => .ok (some mask, checked + 1)
    | .ok false => solveLoop rpn names (mask + 1) r (checked + 1)

/-- The `solveBtn` handler in `docs/script.js`, lines 172-209: tokenize and
parse the input, extract the (at most 9, so `slice(0, MAX_VARS)` is the
identity) variables, fail with `No variables found` when there are none, and
run the brute-force counter loop over `1 << Math.min(n, 20)` assignments. -/
def bruteSolve (expr : String) : Except ParseErr (Option Nat × Nat) :=
  match tokenize expr with
  | .error e => .error e
  | .ok toks =>
    match toRPN toks with
    | .error e => .error e
    | .ok rpn =>
      let names := extractVars expr
      if names.length = 0 then .error .noVars
      else solveLoop rpn names 0 (2 ^ min names.length 20) 0

/-! ### The second copy of the SAT pipeline, from `docs/script.remade.js`

`initSAT` in `docs/script.remade.js` (lines 68-126) carries its own verbatim
copies of `tokenize`, `toRPN` and `evalRPN`; they are embedded separately
below so that the two copies can be compared. -/

/-- The `tokenize` character loop from `docs/script.remade.js`, lines 72-89.  Its
error strings differ from `docs/script.js` (`Invalid variable at i`,
`Unexpected 'c' at i`) but carry the same data, modelled by the same
`ParseErr` constructors. -/
def tokenizeAuxR : List Char → Nat → Except ParseErr (List Tok)
  | [], _ => .ok []
  | c :: rest, i =>
    if c = '(' then (tokenizeAuxR rest (i + 1)).map (Tok.lp :: ·)
    else if c = ')' then (tokenizeAuxR rest (i + 1)).map (Tok.rp :: ·)
    else if c = '!' then (tokenizeAuxR rest (i + 1)).map (Tok.not :: ·)
    else if c = '&' then (tokenizeAuxR rest (i + 1)).map (Tok.and :: ·)
    else if c = '|' then (tokenizeAuxR rest (i + 1)).map (Tok.or :: ·)
    else if c = 'x' then
      match rest with
      | d :: rest' =>
        if isDigit19 d then (tokenizeAuxR rest' (i + 2)).map (Tok.var (digitVal d) :: ·)
        else .error (.invalidVar i)
      | [] => .error (.invalidVar i)
    else .error (.unexpectedChar c i)

/-- Embedding of `tokenize(expr)` from `docs/script.remade.js`: its null
guard on `expr` is the identity on an actual string, leaving the plain
whitespace strip. -/
def tokenizeR (expr : String) : Except ParseErr (List Tok) :=
  tokenizeAuxR (expr.toList.filter (fun c => !c.isWhitespace)) 0

/-- Table `PREC` from `docs/script.remade.js` (identical). -/
def precR : Tok → Nat
  | .not => 3
  | .and => 2
  | .or => 1
  | _ => 0

/-- Table `RIGHT` from `docs/script.remade.js`. -/
def rightAssocR : Tok → Bool
  | .not => true
  | _ => false

/-- Pop condition of the operator case in the remade `toRPN`. -/
def shouldPopR (tk top : Tok) : Bool :=
  (rightAssocR tk && decide (precR tk < precR top)) ||
  (!rightAssocR tk && decide (precR tk ≤ precR top))

/-- Operator-case `while` of the remade `toRPN`. -/
def popOpsR (tk : Tok) : List Tok → List Tok → List Tok × List Tok
  | [], out => (out, [])
  | top :: restOp, out =>
    if top = Tok.lp then (out, top :: restOp)
    else if shouldPopR tk top then popOpsR tk restOp (out ++ [top])
    else (out, top :: restOp)

/-- Close-paren pop of the remade `toRPN`. -/
def popToLPR : List Tok → List Tok → Option (List Tok × List Tok)
  | [], _ => none
  | top :: restOp, out =>
    if top = Tok.lp then some (out, restOp)
    else popToLPR restOp (out ++ [top])

/-- Final drain of the remade `toRPN`. -/
def drainOpsR : List Tok → List Tok → Except ParseErr (List Tok)
  | [], out => .ok out
  | top :: restOp, out =>
    if top = Tok.lp ∨ top = Tok.rp then .error .unbalanced
    else drainOpsR restOp (out ++ [top])

/-- Token loop of `toRPN` from `docs/script.remade.js`, lines 91-111. -/
def toRPNAuxR : List Tok → List Tok → List Tok → Except ParseErr (List Tok)
  | [], out, op => drainOpsR op out
  | tk :: rest, out, op =>
    match tk with
    | .var v => toRPNAuxR rest (out ++ [Tok.var v]) op
    | .lp => toRPNAuxR rest out (Tok.lp :: op)
    | .rp =>
      match popToLPR op out with
      | none => .error .unbalanced
      | some (out', op') => toRPNAuxR rest out' op'
    | opTk =>
      match popOpsR opTk op out with
      | (out', op') => toRPNAuxR rest out' (opTk :: op')

/-- Embedding of `toRPN(tokens)` from `docs/script.remade.js`. -/
def toRPNR (tokens : List Tok) : Except ParseErr (List Tok) :=
  toRPNAuxR tokens [] []

/-- Stack loop of `evalRPN` from `docs/script.remade.js`, lines 113-126. -/
def evalAuxR : List Tok → (Nat → Bool) → List Bool → Except ParseErr Bool
  | [], _, st =>
    match st with
    | [b] => .ok b
    | _ => .error .stackErr
  | tk :: rest, env, st =>
    match tk with
    | .var v => evalAuxR rest env (env v :: st)
    | .not =>
      match st with
      | [] => .error .stackErr
      | b :: s => evalAuxR rest env ((!b) :: s)
    | .and =>
      match st with
      | b :: a :: s => evalAuxR rest env ((a && b) :: s)
      | _ => .error .stackErr
    | .or =>
      match st with
      | b :: a :: s => evalAuxR rest env ((a || b) :: s)
      | _ => .error .stackErr
    | _ => .error .unknownTok

/-- Embedding of `evalRPN(rpn, env)` from `docs/script.remade.js`. -/
def evalRPNR (rpn : List Tok) (env : Nat → Bool) : Except ParseErr Bool :=
  evalAuxR rpn env []

/-- Embedding of `extractVars(expr)` from `docs/script.remade.js`: identical regex scan,
sorted ascending, with `slice(0, 9)` (the identity on at most 9 distinct
variables). -/
def extractVarsR (expr : String) : List Nat :=
  ((List.range' 1 9).filter (fun d => d ∈ extractScan expr.toList)).take 9

/-- Brute-force counter loop of the `btnSolve` handler in
`docs/script.remade.js`, lines 210-213. -/
def solveLoopR (rpn : List Tok) (names : List Nat) :
    Nat → Nat → Nat → Except ParseErr (Option Nat × Nat)
  | _, 0, checked => .ok (none, checked)
  | mask, r + 1, checked =>
    match evalRPNR rpn (envOfMask names mask) with
    | .error e => .error e
    | .ok true => .ok (some mask, checked + 1)
    | .ok false => solveLoopR rpn names (mask + 1) r (checked + 1)

/-- The `btnSolve` handler of `docs/script.remade.js`, lines 203-228: same
brute force as `docs/script.js` but with `limit = 1 << Math.min(n, 12)` and
the error message `No variables`. -/
def bruteSolveR (expr : String) : Except ParseErr (Option Nat × Nat) :=
  let names := extractVarsR expr
  if names.length = 0 then .error .noVars
  else
    match tokenizeR expr with
    | .error e => .error e
    | .ok toks =>
      match toRPNR toks with
      | .error e => .error e
      | .ok rpn => solveLoopR rpn names 0 (2 ^ min names.length 12) 0

/-! ### Subset-sum backtracking, `docs/script.js` lines 573-599

`backtrack` orders the numbers by descending absolute value (a stable sort of
the `{v, i}` pairs), then runs an include/exclude depth-first search.  Each
`dfs` call first compares elapsed wall-clock time against the cap
(`performance.now() - start > MAX_TIME_MS`); that ambient clock is modelled by
an explicit oracle `timedOut : Nat → Bool` indexed by the number of `dfs`
calls made so far, which is threaded through the recursion.  The copy in
`docs/script.remade.js` lines 768-783 is identical apart from the cap
constant (700/1200 ms instead of 500 ms), which the oracle abstracts away. -/

/-- The recursive `dfs(i, sum, take)` of `backtrack`: `rest` is the remaining
suffix of the sorted `(value, original index)` pairs, `acc` the running sum,
`take` the indices taken so far, and `k` the number of `dfs` calls already
made (the clock).  Returns the recorded `best` (if the target was hit)
together with the updated clock. -/
def ssDfs (timedOut : Nat → Bool) (target : Int) :
    List (Int × Nat) → Int → List Nat → Nat → Option (List Nat) × Nat
  | rest, acc, take, k =>
    if timedOut k then (none, k + 1)
    else if acc = target then (some take, k + 1)
    else
      match rest with
      | [] => (none, k + 1)
      | (v, idx) :: rs =>
        match ssDfs timedOut target rs (acc + v) (take ++ [idx]) (k + 1) with
        | (some b, k') => (some b, k')
        | (none, k') => ssDfs timedOut target rs acc take k'

/-- Embedding of `backtrack(nums, target)` from `docs/script.js`: sort index/value pairs by
descending absolute value, run the DFS, and map the recorded indices back to
values (`best.map(j => nums[j])`). -/
def backtrack (timedOut : Nat → Bool) (nums : List Int) (target : Int) :
    Option (List Int) :=
  let order := List.insertionSort (fun a b : Int × Nat => |b.1| ≤ |a.1|)
    (nums.enum.map (fun p => (p.2, p.1)))
  match ssDfs timedOut target order 0 [] 0 with
  | (some best, _) => some (best.map (fun j => nums.getD j 0))
  | (none, _) => none

/-- The result line shown by the `#ss-check` click handler in
`docs/script.js`, lines 610-620, as a function of `backtrack`'s return
value. -/
def ssMessage (r : Option (List Int)) : String :=
  match r with
  | some _ => "Subset found!"
  | none => "No subset found (within demo limits)"

/-! ### The `SearchSpace` widget (frontend, `src/unnamed/part_000`) -/

/-- The widget's own `factorial`: `if (num <= 1) return 1; return num *
factorial(num - 1)`. -/
def ssFactorial (n : Nat) : Nat :=
  if _h : n ≤ 1 then 1 else n * ssFactorial (n - 1)
termination_by n
decreasing_by simp_wf; omega

/-- The widget state `numPaths = factorial(n)` — the displayed count of possible paths. -/
def searchPaths (n : Nat) : Nat := ssFactorial n

/-- The widget state `timeMs = numPaths * 0.001` — the time estimate at 1 microsecond per
path, before `formatTime`, as an exact rational. -/
def searchTimeMs (n : Nat) : ℚ := (ssFactorial n : ℚ) * (1 / 1000)

/-! ### The interactive `Graph` component (frontend, `src/unnamed/part_000`)

Nodes and edges are given by ids; `handleNodeClick` computes the next user
path from the current one. -/

/-- The `hasEdge` test of `handleNodeClick`: some edge joins `a` and `b` in
either direction. -/
def hasEdge (edges : List (Nat × Nat)) (a b : Nat) : Bool :=
  edges.any (fun e => (e.1 = a && e.2 = b) || (e.1 = b && e.2 = a))

/-- Embedding of `handleNodeClick(nodeId)` from the `Graph` component: if the node is
already in the path, truncate just after it (`slice(0, index + 1)`); an empty
path accepts any first node; otherwise the node is appended only when an edge
joins it to the current last node, else the path is unchanged (no
`onPathChange` call). -/
def handleNodeClick (edges : List (Nat × Nat)) (userPath : List Nat)
    (nodeId : Nat) : List Nat :=
  if nodeId ∈ userPath then
    userPath.take (userPath.indexOf nodeId + 1)
  else
    match userPath.getLast? with
    | none => [nodeId]
    | some lastNode =>
      if hasEdge edges lastNode nodeId then userPath ++ [nodeId] else userPath

/-- Consecutive nodes of the list are joined by an edge (in either
direction). -/
def consecAdj (edges : List (Nat × Nat)) : List Nat → Bool
  | [] => true
  | [_] => true
  | a :: b :: rest => hasEdge edges a b && consecAdj edges (b :: rest)

/-- The user paths reachable through node clicks starting from the empty
path: each click is on one of the component's nodes and transforms the path
through `handleNodeClick`. -/
inductive ReachablePath (nodeIds : List Nat) (edges : List (Nat × Nat)) :
    List Nat → Prop where
  | nil : ReachablePath nodeIds edges []
  | click {p : List Nat} {v : Nat} (hp : ReachablePath nodeIds edges p)
      (hv : v ∈ nodeIds) :
      ReachablePath nodeIds edges (handleNodeClick edges p v)

/-- The 6-node demo graph of the `CheckVsFind` station
(`src/unnamed/part_001`). -/
def demoNodeIds : List Nat := [1, 2, 3, 4, 5, 6]

/-- Its edge list. -/
def demoEdges : List (Nat × Nat) :=
  [(1, 2), (1, 3), (2, 4), (2, 3), (3, 5), (4, 6), (5, 6), (4, 5), (2, 5)]

/-! ## Theorems -/

/-- C5: on the formula `(x1) & (!x1)` (the `Unsat` preset of
`docs/script.remade.js` and the same input typed into `docs/script.js`), both
brute-force SAT solvers report unsatisfiable, each after evaluating exactly 2
assignments (reported checked count = 2). -/
theorem sat_unsat_preset_two_assignments :
    bruteSolve ("(x1) & (!x1)") = .ok (none, 2) ∧
    bruteSolveR ("(x1) & (!x1)") = .ok (none, 2) :=
  ⟨rfl, rfl⟩

/-- C6: on numbers `[5, 7, 11]` with target `3` (the `No solution` preset),
the backtracking search terminates with the time cap never reached (oracle
constantly false) and returns a null witness, so the handler reports that no
subset was found. -/
theorem subsetsum_no_solution_preset :
    backtrack (fun _ => false) [5, 7, 11] 3 = none ∧
    ssMessage (backtrack (fun _ => false) [5, 7, 11] 3) =
      "No subset found (within demo limits)" :=
  ⟨rfl, rfl⟩

/-- A `dfs` call whose wall-clock check fires returns immediately with no
result recorded. -/
theorem ssDfs_timedOut (tO : Nat → Bool) (target : Int) (rest : List (Int × Nat))
    (acc : Int) (take : List Nat) (k : Nat) (h : tO k = true) :
    ssDfs tO target rest acc take k = (none, k + 1) := by
  cases rest <;> simp [ssDfs, h]

/-- C2 counterexample: a search aborted by the time cap before the
include/exclude space is exhausted (immediate-timeout oracle on `[1]` with
target `1`, an instance that a completed search solves) returns `null` — the
very same observable result, with the very same handler message, as a
completed search that proved no subset exists (`[5, 7, 11]`, target `3`).
The two outcomes are conflated, refuting the claimed distinguishability. -/
theorem subsetsum_budget_conflated_cex :
    backtrack (fun _ => true) [1] 1 = none ∧
    backtrack (fun _ => false) [1] 1 = some [1] ∧
    backtrack (fun _ => true) [1] 1 = backtrack (fun _ => false) [5, 7, 11] 3 ∧
    ssMessage (backtrack (fun _ => true) [1] 1) =
      ssMessage (backtrack (fun _ => false) [5, 7, 11] 3) :=
  ⟨rfl, rfl, rfl, rfl⟩

/-- C2 amended: when the wall-clock cap aborts the search, `backtrack`
returns `null` and the handler shows `No subset found (within demo limits)` —
the same observable result as a completed search that proved no subset
exists; the caller cannot distinguish the two outcomes. -/
theorem subsetsum_budget_conflated (nums : List Int) (target : Int) :
    backtrack (fun _ => true) nums target = none ∧
    ssMessage (backtrack (fun _ => true) nums target) =
      ssMessage (backtrack (fun _ => false) [5, 7, 11] 3) := by
  have h1 : backtrack (fun _ => true) nums target = none := by
    simp [backtrack, ssDfs_timedOut]
  exact ⟨h1, by rw [h1]; rfl⟩

/-- C7 counterexample: the subset-sum solver's verdict is not a function of
the instance alone.  On the same instance (`[1]`, target `1`) a run whose
wall clock exceeds the cap at once returns `null` while a run that never hits
the cap returns the witness `[1]`: two calls on the same instance with
different timing yield different verdicts. -/
theorem backtrack_timing_dependent_cex :
    backtrack (fun _ => true) [1] 1 = none ∧
    backtrack (fun _ => false) [1] 1 = some [1] ∧
    (none : Option (List Int)) ≠ some [1] :=
  ⟨rfl, rfl, by decide⟩

/-- C7 amended: the SAT brute force is a pure function of its input formula
(same verdict, witness and checked count on repeated calls), and the
subset-sum backtracking is deterministic as a function of the instance
*together with* the wall-clock timeout behaviour: two calls whose clocks
agree return the same result.  (Two calls on the same instance with
different timing may differ, per the counterexample.) -/
theorem solvers_deterministic_amended :
    (∀ expr, bruteSolve expr = bruteSolve expr) ∧
    (∀ tO tO' : Nat → Bool, ∀ (nums : List Int) (target : Int),
      (∀ k, tO k = tO' k) →
      backtrack tO nums target = backtrack tO' nums target) := by
  refine ⟨fun _ => rfl, fun tO tO' nums target h => ?_⟩
  rw [funext h]

/-- Witness for the amended C7 theorem at a concrete instance and a concrete
pair of identical clocks. -/
theorem solvers_deterministic_witness :
    backtrack (fun _ => false) [5, 7, 11] 3 =
      backtrack (fun _ => false) [5, 7, 11] 3 :=
  solvers_deterministic_amended.2 (fun _ => false) (fun _ => false) [5, 7, 11] 3
    (fun _ => rfl)

/-- The widget's recursive `factorial` agrees with the mathematical
factorial. -/
theorem ssFactorial_eq_factorial (n : Nat) : ssFactorial n = Nat.factorial n := by
  induction n with
  | zero => simp [ssFactorial]
  | succ k ih =>
    rw [ssFactorial]
    rcases Nat.eq_zero_or_pos k with hk | hk
    · subst hk; simp
    · have hle : ¬(k + 1 ≤ 1) := by omega
      simp [hle, ih, Nat.factorial_succ]

/-- C8: for every city count in the slider range 4..14, the `SearchSpace`
widget displays exactly `n!` possible paths, its time estimate is
`n! * 0.001` milliseconds (1 microsecond per path) before formatting, and the
displayed count deliberately differs from the mathematically correct
`(n-1)!/2` count for undirected Hamiltonian paths noted in the widget's
comments. -/
theorem searchspace_paths_factorial (n : Nat) (h4 : 4 ≤ n) (h14 : n ≤ 14) :
    searchPaths n = Nat.factorial n ∧
    searchTimeMs n = (Nat.factorial n : ℚ) / 1000 ∧
    searchPaths n ≠ Nat.factorial (n - 1) / 2 := by
  refine ⟨ssFactorial_eq_factorial n, ?_, ?_⟩
  · rw [searchTimeMs, ssFactorial_eq_factorial]; ring
  · rw [searchPaths, ssFactorial_eq_factorial]
    interval_cases n <;> decide

/-- Witness for C8 at `n = 4`: 24 displayed paths, 0.024 ms, versus the
correct count 3. -/
theorem searchspace_paths_factorial_witness :
    searchPaths 4 = Nat.factorial 4 ∧
    searchTimeMs 4 = (Nat.factorial 4 : ℚ) / 1000 ∧
    searchPaths 4 ≠ Nat.factorial (4 - 1) / 2 :=
  searchspace_paths_factorial 4 (by decide) (by decide)

/-- Truncating a path preserves consecutive adjacency. -/
theorem consecAdj_take (edges : List (Nat × Nat)) :
    ∀ (p : List Nat) (n : Nat), consecAdj edges p = true →
      consecAdj edges (p.take n) = true := by
  intro p
  induction p with
  | nil => intro n _; simp [consecAdj]
  | cons a rest ih =>
    intro n h
    match n with
    | 0 => simp [consecAdj]
    | m + 1 =>
      match rest with
      | [] => simp [consecAdj]
      | b :: rest' =>
        rw [consecAdj, Bool.and_eq_true] at h
        obtain ⟨h1, h2⟩ := h
        match m with
        | 0 => simp [consecAdj]
        | k + 1 =>
          have h3 := ih (k + 1) h2
          rw [List.take_succ_cons] at h3
          simp only [List.take_succ_cons, consecAdj, h1, Bool.true_and]
          exact h3

/-- Appending a node joined to the last node preserves consecutive
adjacency. -/
theorem consecAdj_append (edges : List (Nat × Nat)) :
    ∀ (p : List Nat) (lastN v : Nat), consecAdj edges p = true →
      p.getLast? = some lastN → hasEdge edges lastN v = true →
      consecAdj edges (p ++ [v]) = true := by
  intro p
  induction p with
  | nil => intro lastN v _ hl _; simp at hl
  | cons a rest ih =>
    intro lastN v h hl he
    match rest with
    | [] =>
      simp at hl
      subst hl
      simp [consecAdj, he]
    | b :: rest' =>
      rw [List.getLast?_cons_cons] at hl
      rw [consecAdj, Bool.and_eq_true] at h
      obtain ⟨h1, h2⟩ := h
      have h3 := ih lastN v h2 hl he
      simpa [consecAdj, h1] using h3

/-- Unfolding `handleNodeClick` when the clicked node is not in the path and
the path is nonempty with last node `lastNode`. -/
theorem handleNodeClick_some_last (edges : List (Nat × Nat)) (p : List Nat)
    (v lastNode : Nat) (hmem : v ∉ p) (hlast : p.getLast? = some lastNode) :
    handleNodeClick edges p v =
      if hasEdge edges lastNode v then p ++ [v] else p := by
  rw [handleNodeClick, if_neg hmem, hlast]

/-- Every user path reachable through node clicks has no duplicate nodes,
has consecutive nodes joined by edges, and mentions only the component's
nodes. -/
theorem reachable_invariant (ids : List Nat) (edges : List (Nat × Nat)) :
    ∀ p, ReachablePath ids edges p →
      p.Nodup ∧ consecAdj edges p = true ∧ ∀ v ∈ p, v ∈ ids := by
  intro p hp
  induction hp with
  | nil => simp [consecAdj]
  | @click q v hq hv ih =>
    obtain ⟨hnd, hadj, hsub⟩ := ih
    by_cases hmem : v ∈ q
    · rw [handleNodeClick, if_pos hmem]
      refine ⟨hnd.sublist (List.take_sublist _ _), consecAdj_take edges q _ hadj, ?_⟩
      intro x hx
      exact hsub x (List.take_subset _ _ hx)
    · cases hlast : q.getLast? with
      | none =>
        have hq : q = [] := by simpa using hlast
        subst hq
        have hcl : handleNodeClick edges [] v = [v] := rfl
        rw [hcl]
        simp [consecAdj, hv]
      | some lastNode =>
        rw [handleNodeClick_some_last edges q v lastNode hmem hlast]
        by_cases hedge : hasEdge edges lastNode v = true
        · rw [if_pos hedge]
          refine ⟨?_, consecAdj_append edges q lastNode v hadj hlast hedge, ?_⟩
          · simp [List.nodup_append, hnd, hmem]
          · intro x hx
            rcases List.mem_append.mp hx with hx | hx
            · exact hsub x hx
            · simp at hx; subst hx; exact hv
        · rw [if_neg hedge]
          exact ⟨hnd, hadj, hsub⟩

/-- C9: the `Graph` widget's click-path invariant.  Every path reachable
through node clicks from the empty path is duplicate-free, consecutive nodes
are joined by an edge, and all its nodes belong to the component; clicking a
node already in the path truncates just after it; clicking a node with no
edge to the current last node leaves the path unchanged; consequently a
reachable path is a valid Hamiltonian path as soon as it has as many nodes as
the graph — the downstream `CheckVsFind` submit handler need only test length
and uniqueness. -/
theorem graph_click_invariant (ids : List Nat) (edges : List (Nat × Nat)) :
    (∀ p, ReachablePath ids edges p →
      p.Nodup ∧ consecAdj edges p = true ∧ ∀ v ∈ p, v ∈ ids) ∧
    (∀ (p : List Nat) (v : Nat), v ∈ p →
      handleNodeClick edges p v = p.take (p.indexOf v + 1)) ∧
    (∀ (p : List Nat) (v lastNode : Nat), v ∉ p → p.getLast? = some lastNode →
      hasEdge edges lastNode v = false → handleNodeClick edges p v = p) ∧
    (ids.Nodup → ∀ p, ReachablePath ids edges p → p.length = ids.length →
      p.Perm ids ∧ consecAdj edges p = true) := by
  refine ⟨reachable_invariant ids edges, ?_, ?_, ?_⟩
  · intro p v hmem
    rw [handleNodeClick, if_pos hmem]
  · intro p v lastNode hmem hlast hedge
    rw [handleNodeClick_some_last edges p v lastNode hmem hlast, hedge]
    simp
  · intro hids p hp hlen
    obtain ⟨hnd, hadj, hsub⟩ := reachable_invariant ids edges p hp
    refine ⟨?_, hadj⟩
    exact (hnd.subperm fun x hx => hsub x hx).perm_of_length_le (le_of_eq hlen.symm)

/-- Witness for C9 on the six-node `CheckVsFind` demo graph: the path
`[1, 2, 4]`, reached by clicking A, B, D, satisfies the invariant. -/
theorem graph_click_invariant_witness :
    ([1, 2, 4] : List Nat).Nodup ∧ consecAdj demoEdges [1, 2, 4] = true ∧
      ∀ v ∈ ([1, 2, 4] : List Nat), v ∈ demoNodeIds :=
  (graph_click_invariant demoNodeIds demoEdges).1 [1, 2, 4]
    (show ReachablePath demoNodeIds demoEdges
        (handleNodeClick demoEdges
          (handleNodeClick demoEdges (handleNodeClick demoEdges [] 1) 2) 4) from
      ReachablePath.click
        (ReachablePath.click
          (ReachablePath.click ReachablePath.nil (by decide)) (by decide))
        (by decide))

/-- Soundness of the include/exclude DFS: a recorded result extends the
current `take` by the indices of some sublist of the remaining pairs whose
values make up exactly the missing amount. -/
theorem ssDfs_sound (tO : Nat → Bool) (target : Int) :
    ∀ (rest : List (Int × Nat)) (acc : Int) (take : List Nat) (k : Nat)
      (b : List Nat) (k' : Nat),
      ssDfs tO target rest acc take k = (some b, k') →
      ∃ sub : List (Int × Nat), sub.Sublist rest ∧
        b = take ++ sub.map Prod.snd ∧
        acc + (sub.map Prod.fst).sum = target := by
  intro rest
  induction rest with
  | nil =>
    intro acc take k b k' h
    rw [ssDfs] at h
    split_ifs at h with h1 h2
    · simp at h
    · simp at h
      exact ⟨[], List.Sublist.refl _, by simp [h.1.symm], by simpa using h2⟩
    · simp at h
  | cons hd rs ih =>
    obtain ⟨v, idx⟩ := hd
    intro acc take k b k' h
    rw [ssDfs] at h
    split_ifs at h with h1 h2
    · simp at h
    · simp at h
      exact ⟨[], List.nil_sublist _, by simp [h.1.symm], by simpa using h2⟩
    · cases hrec : ssDfs tO target rs (acc + v) (take ++ [idx]) (k + 1) with
      | mk o1 k1 =>
        cases o1 with
        | some b1 =>
          rw [hrec] at h
          simp only [Prod.mk.injEq, Option.some.injEq] at h
          obtain ⟨hb, _⟩ := h
          subst hb
          obtain ⟨sub, hsl, hb, hsum⟩ := ih (acc + v) (take ++ [idx]) (k + 1) b1 k1 hrec
          refine ⟨(v, idx) :: sub, List.Sublist.cons₂ _ hsl, ?_, ?_⟩
          · rw [hb, List.append_assoc]
            simp
          · rw [List.map_cons, List.sum_cons, ← add_assoc]
            exact hsum
        | none =>
          rw [hrec] at h
          simp only at h
          obtain ⟨sub, hsl, hb, hsum⟩ := ih acc take k1 b k' h
          exact ⟨sub, List.Sublist.cons _ hsl, hb, hsum⟩

/-- C4: whenever the backtracking search returns a witness subset, that
subset is a sub-multiset of the input numbers — it is read off a
duplicate-free list of in-range input positions — and its elements sum
exactly to the target, for any wall-clock behaviour. -/
theorem subsetsum_witness_valid (tO : Nat → Bool) (nums : List Int)
    (target : Int) (subset : List Int)
    (h : backtrack tO nums target = some subset) :
    subset.Subperm nums ∧ subset.sum = target ∧
      ∃ ids : List Nat, ids.Nodup ∧ (∀ j ∈ ids, j < nums.length) ∧
        subset = ids.map (fun j => nums.getD j 0) := by
  simp only [backtrack] at h
  cases hd : ssDfs tO target
      (List.insertionSort (fun a b : Int × Nat => |b.1| ≤ |a.1|)
        (nums.enum.map (fun p => (p.2, p.1)))) 0 [] 0 with
  | mk o k' =>
    rw [hd] at h
    cases o with
    | none => simp at h
    | some best =>
      simp only [Option.some.injEq] at h
      obtain ⟨sub, hsl, hb, hsum⟩ := ssDfs_sound tO target _ 0 [] 0 best k' hd
      rw [List.nil_append] at hb
      have hperm : (List.insertionSort (fun a b : Int × Nat => |b.1| ≤ |a.1|)
          (nums.enum.map (fun p => (p.2, p.1)))).Perm
          (nums.enum.map (fun p => (p.2, p.1))) :=
        List.perm_insertionSort _ _
      have hmemval : ∀ pr ∈ sub, nums.getD pr.2 0 = pr.1 := by
        intro pr hpr
        have h1 : pr ∈ nums.enum.map (fun p => (p.2, p.1)) :=
          hperm.mem_iff.mp (hsl.subset hpr)
        obtain ⟨q, hq, hqe⟩ := List.mem_map.mp h1
        obtain ⟨i, x⟩ := q
        have : nums[i]? = some x := List.mk_mem_enum_iff_getElem?.mp hq
        rw [← hqe]
        simp [List.getD_eq_getElem?_getD, this]
      have hsubset : subset = sub.map (fun pr => nums.getD pr.2 0) := by
        rw [← h, hb, List.map_map]
        rfl
      have hsubeq : subset = sub.map Prod.fst := by
        rw [hsubset]
        exact List.map_congr_left hmemval
      have hsubperm : subset.Subperm nums := by
        rw [hsubeq]
        have h1 : (sub.map Prod.fst).Sublist
            ((List.insertionSort (fun a b : Int × Nat => |b.1| ≤ |a.1|)
              (nums.enum.map (fun p => (p.2, p.1)))).map Prod.fst) :=
          hsl.map Prod.fst
        have h2 : ((nums.enum.map (fun p => (p.2, p.1))).map Prod.fst) = nums := by
          rw [List.map_map]
          exact List.enum_map_snd nums
        have h3 := hperm.map Prod.fst
        rw [h2] at h3
        exact h1.subperm.trans h3.subperm
      refine ⟨hsubperm, ?_, ?_⟩
      · rw [hsubeq]
        simpa using hsum
      · refine ⟨sub.map Prod.snd, ?_, ?_, ?_⟩
        · have h1 : (sub.map Prod.snd).Subperm (List.range nums.length) := by
            have hsl2 : (sub.map Prod.snd).Sublist
                ((List.insertionSort (fun a b : Int × Nat => |b.1| ≤ |a.1|)
                  (nums.enum.map (fun p => (p.2, p.1)))).map Prod.snd) :=
              hsl.map Prod.snd
            have h2 : ((nums.enum.map (fun p => (p.2, p.1))).map Prod.snd) =
                List.range nums.length := by
              rw [List.map_map]
              exact List.enum_map_fst nums
            have h3 := hperm.map Prod.snd
            rw [h2] at h3
            exact hsl2.subperm.trans h3.subperm
          obtain ⟨l', hl'p, hl's⟩ := h1
          exact hl'p.symm.nodup_iff.mpr ((List.nodup_range _).sublist hl's)
        · intro j hj
          have h1 : (sub.map Prod.snd).Subperm (List.range nums.length) := by
            have hsl2 := hsl.map Prod.snd
            have h2 : ((nums.enum.map (fun p => (p.2, p.1))).map Prod.snd) =
                List.range nums.length := by
              rw [List.map_map]
              exact List.enum_map_fst nums
            have h3 := hperm.map Prod.snd
            rw [h2] at h3
            exact (hsl2.subperm).trans h3.subperm
          have := h1.subset hj
          simpa using this
        · rw [hsubset, List.map_map]
          rfl

/-- Witness for C4 on the `Tricky` preset `[3, 34, 4, 12, 5, 2]` with target
`9`, where the search finds `[5, 4]`. -/
theorem subsetsum_witness_valid_witness :
    ([5, 4] : List Int).Subperm [3, 34, 4, 12, 5, 2] ∧
      ([5, 4] : List Int).sum = 9 ∧
      ∃ ids : List Nat, ids.Nodup ∧
        (∀ j ∈ ids, j < ([3, 34, 4, 12, 5, 2] : List Int).length) ∧
        ([5, 4] : List Int) = ids.map (fun j => ([3, 34, 4, 12, 5, 2] : List Int).getD j 0) :=
  subsetsum_witness_valid (fun _ => false) [3, 34, 4, 12, 5, 2] 9 [5, 4] rfl

/-- Whether the RPN evaluator succeeds depends only on the token list and the
stack depth, never on the truth values involved. -/
theorem evalAux_isOk_congr :
    ∀ (rpn : List Tok) (env1 env2 : Nat → Bool) (st1 st2 : List Bool),
      st1.length = st2.length →
      (evalAux rpn env1 st1).isOk = (evalAux rpn env2 st2).isOk := by
  intro rpn
  induction rpn with
  | nil =>
    intro env1 env2 st1 st2 hlen
    match st1, st2 with
    | [], [] => rfl
    | [], _ :: _ => simp at hlen
    | _ :: _, [] => simp at hlen
    | [_], [_] => rfl
    | [_], _ :: _ :: _ => simp at hlen
    | _ :: _ :: _, [_] => simp at hlen
    | _ :: _ :: _, _ :: _ :: _ => rfl
  | cons tk rest ih =>
    intro env1 env2 st1 st2 hlen
    cases tk with
    | var v =>
      exact ih env1 env2 (env1 v :: st1) (env2 v :: st2) (by simpa using hlen)
    | not =>
      match st1, st2 with
      | [], [] => rfl
      | [], _ :: _ => simp at hlen
      | _ :: _, [] => simp at hlen
      | a :: t1, b :: t2 =>
        exact ih env1 env2 ((!a) :: t1) ((!b) :: t2) (by simpa using hlen)
    | and =>
      match st1, st2 with
      | [], [] => rfl
      | [], _ :: _ => simp at hlen
      | _ :: _, [] => simp at hlen
      | [_], [_] => rfl
      | [_], _ :: _ :: _ => simp at hlen
      | _ :: _ :: _, [_] => simp at hlen
      | a :: a' :: t1, b :: b' :: t2 =>
        exact ih env1 env2 ((a' && a) :: t1) ((b' && b) :: t2) (by simpa using hlen)
    | or =>
      match st1, st2 with
      | [], [] => rfl
      | [], _ :: _ => simp at hlen
      | _ :: _, [] => simp at hlen
      | [_], [_] => rfl
      | [_], _ :: _ :: _ => simp at hlen
      | _ :: _ :: _, [_] => simp at hlen
      | a :: a' :: t1, b :: b' :: t2 =>
        exact ih env1 env2 ((a' || a) :: t1) ((b' || b) :: t2) (by simpa using hlen)
    | lp => rfl
    | rp => rfl

/-- The brute-force counter loop, specified: it returns the first mask in
`[mask, mask + r)` (scanned in increasing order) whose assignment satisfies
the formula, incrementing `checked` once per assignment evaluated. -/
theorem solveLoop_spec (rpn : List Tok) (names : List Nat)
    (hwf : ∀ env, (evalRPN rpn env).isOk = true) :
    ∀ (r mask checked : Nat),
      solveLoop rpn names mask r checked =
        .ok (match (List.range' mask r).find?
              (fun m => evalTrue rpn (envOfMask names m)) with
            | some m => (some m, checked + (m + 1 - mask))
            | none => (none, checked + r)) := by
  intro r
  induction r with
  | zero => intro mask checked; simp [solveLoop]
  | succ n ih =>
    intro mask checked
    rw [solveLoop]
    have hok := hwf (envOfMask names mask)
    cases he : evalRPN rpn (envOfMask names mask) with
    | error e =>
      rw [he] at hok
      simp [Except.isOk, Except.toBool] at hok
    | ok b =>
      have htrue : evalTrue rpn (envOfMask names mask) = b := by
        rw [evalTrue, he]
        cases b <;> rfl
      cases b with
      | true =>
        rw [List.range'_succ,
          List.find?_cons_of_pos (List.range' (mask + 1) n)
            (show (fun m => evalTrue rpn (envOfMask names m)) mask = true from htrue)]
        dsimp only
        have harith : checked + (mask + 1 - mask) = checked + 1 := by omega
        rw [harith]
      | false =>
        rw [List.range'_succ,
          List.find?_cons_of_neg (List.range' (mask + 1) n)
            (show ¬((fun m => evalTrue rpn (envOfMask names m)) mask = true) by
              simp [htrue]),
          ih]
        dsimp only
        cases hf : (List.range' (mask + 1) n).find?
            (fun m => evalTrue rpn (envOfMask names m)) with
        | none =>
          have harith : checked + 1 + n = checked + (n + 1) := by omega
          rw [harith]
        | some m =>
          have hm : mask + 1 ≤ m :=
            (List.mem_range'_1.mp (List.mem_of_find?_eq_some hf)).1
          have harith : checked + 1 + (m + 1 - (mask + 1)) = checked + (m + 1 - mask) := by
            omega
          dsimp only
          rw [harith]

/-- C1: for a well-formed formula over variables `x1..xN` (the parse pipeline
succeeds on the input and its RPN evaluates without stack errors), the
brute-force solve enumerates assignments as an increasing binary counter
(mask `m` assigns variable `xi` the bit `i - 1` of `m`; mask 0 is all-false),
returns the first satisfying assignment, reports UNSAT only after all `2^N`
assignments were evaluated, and the reported checked count is the index of
the first satisfying assignment plus one, or `2^N` when unsatisfiable. -/
theorem sat_bruteforce_first_assignment (expr : String) (toks rpn : List Tok)
    (N : Nat) (ht : tokenize expr = .ok toks) (hr : toRPN toks = .ok rpn)
    (hv : extractVars expr = List.range' 1 N) (hN : ¬N = 0)
    (hwf : (evalRPN rpn (fun _ => false)).isOk = true) :
    bruteSolve expr =
      .ok (match (List.range (2 ^ N)).find?
            (fun m => evalTrue rpn (envOfMask (List.range' 1 N) m)) with
          | some m => (some m, m + 1)
          | none => (none, 2 ^ N)) := by
  have hwfall : ∀ env, (evalRPN rpn env).isOk = true := by
    intro env
    rw [evalRPN] at hwf ⊢
    rw [evalAux_isOk_congr rpn env (fun _ => false) [] [] rfl]
    exact hwf
  have hN9 : N ≤ 9 := by
    have h1 := congrArg List.length hv
    rw [List.length_range'] at h1
    have h2 : (extractVars expr).length ≤ 9 := by
      rw [extractVars]
      calc ((List.range' 1 9).filter (fun d => d ∈ extractScan expr.toList)).length
          ≤ (List.range' 1 9).length := List.length_filter_le _ _
        _ = 9 := List.length_range' 1 1 9
    omega
  simp only [bruteSolve, ht, hr, hv, List.length_range']
  rw [if_neg hN, Nat.min_eq_left (by omega : N ≤ 20)]
  rw [solveLoop_spec rpn (List.range' 1 N) hwfall (2 ^ N) 0 0]
  rw [List.range_eq_range']
  cases hf : (List.range' 0 (2 ^ N)).find?
      (fun m => evalTrue rpn (envOfMask (List.range' 1 N) m)) with
  | none => simp
  | some m => simp

/-- Witness for C1 on the single-variable formula `x1` (`N = 1`): the solver
returns mask 1 (`x1 = true`, the second assignment) with 2 assignments
checked. -/
theorem sat_bruteforce_first_assignment_witness :
    bruteSolve ("x1") = .ok (some 1, 2) :=
  (sat_bruteforce_first_assignment ("x1") [Tok.var 1] [Tok.var 1] 1 rfl rfl rfl
    (by decide) rfl).trans (by rfl)

/-- The two copies agree: pop condition. -/
theorem shouldPopR_eq (tk top : Tok) : shouldPopR tk top = shouldPop tk top := by
  cases tk <;> cases top <;> rfl

/-- The two copies agree: operator-case pop. -/
theorem popOpsR_eq (tk : Tok) :
    ∀ (op out : List Tok), popOpsR tk op out = popOps tk op out := by
  intro op
  induction op with
  | nil => intro out; rfl
  | cons top restOp ih =>
    intro out
    rw [popOpsR, popOps, shouldPopR_eq]
    split_ifs
    · rfl
    · exact ih (out ++ [top])
    · rfl

/-- The two copies agree: close-paren pop. -/
theorem popToLPR_eq :
    ∀ (op out : List Tok), popToLPR op out = popToLP op out := by
  intro op
  induction op with
  | nil => intro out; rfl
  | cons top restOp ih =>
    intro out
    rw [popToLPR, popToLP]
    split_ifs
    · rfl
    · exact ih (out ++ [top])

/-- The two copies agree: final drain. -/
theorem drainOpsR_eq :
    ∀ (op out : List Tok), drainOpsR op out = drainOps op out := by
  intro op
  induction op with
  | nil => intro out; rfl
  | cons top restOp ih =>
    intro out
    rw [drainOpsR, drainOps]
    split_ifs
    · rfl
    · exact ih (out ++ [top])

/-- The two copies agree: shunting-yard token loop. -/
theorem toRPNAuxR_eq :
    ∀ (toks out op : List Tok), toRPNAuxR toks out op = toRPNAux toks out op := by
  intro toks
  induction toks with
  | nil => intro out op; exact drainOpsR_eq op out
  | cons tk rest ih =>
    intro out op
    cases tk <;>
      simp only [toRPNAuxR, toRPNAux, popOpsR_eq, popToLPR_eq, drainOpsR_eq, ih]

/-- The two copies agree: tokenizer (by induction on a length bound, since
the variable case consumes two characters at once). -/
theorem tokenizeAuxR_eq_aux :
    ∀ (n : Nat) (cs : List Char), cs.length ≤ n →
      ∀ i, tokenizeAuxR cs i = tokenizeAux cs i := by
  intro n
  induction n with
  | zero =>
    intro cs hlen i
    cases cs with
    | nil => rfl
    | cons c rest => simp at hlen
  | succ n ihn =>
    intro cs hlen i
    cases cs with
    | nil => rfl
    | cons c rest =>
      rw [tokenizeAuxR.eq_def, tokenizeAux.eq_def]
      dsimp only
      have hr : rest.length ≤ n := by simp at hlen; omega
      split_ifs
      · rw [ihn rest hr]
      · rw [ihn rest hr]
      · rw [ihn rest hr]
      · rw [ihn rest hr]
      · rw [ihn rest hr]
      · cases rest with
        | nil => rfl
        | cons d rest2 =>
          dsimp only
          have hr2 : rest2.length ≤ n := by simp at hlen; omega
          split_ifs
          · rw [ihn rest2 hr2]
          · rfl
      · rfl

/-- The two copies agree: tokenizer. -/
theorem tokenizeAuxR_eq (cs : List Char) (i : Nat) :
    tokenizeAuxR cs i = tokenizeAux cs i :=
  tokenizeAuxR_eq_aux cs.length cs le_rfl i

/-- The two copies agree: RPN evaluator. -/
theorem evalAuxR_eq :
    ∀ (rpn : List Tok) (env : Nat → Bool) (st : List Bool),
      evalAuxR rpn env st = evalAux rpn env st := by
  intro rpn
  induction rpn with
  | nil => intro env st; rfl
  | cons tk rest ih =>
    intro env st
    cases tk with
    | var v => exact ih env (env v :: st)
    | not =>
      cases st with
      | nil => rfl
      | cons b s => exact ih env ((!b) :: s)
    | and =>
      match st with
      | [] => rfl
      | [_] => rfl
      | b :: a :: s => exact ih env ((a && b) :: s)
    | or =>
      match st with
      | [] => rfl
      | [_] => rfl
      | b :: a :: s => exact ih env ((a || b) :: s)
    | lp => rfl
    | rp => rfl

/-- C10: the SAT parser/evaluator pipeline of `docs/script.js` and the copy
of the same names in `docs/script.remade.js` are extensionally equal: on
every input expression and environment, `tokenize`, `toRPN` and `evalRPN`
return the same value (in particular they either both raise an error or both
produce the same boolean). -/
theorem sat_pipeline_copies_equivalent :
    (∀ expr : String, tokenizeR expr = tokenize expr) ∧
    (∀ toks : List Tok, toRPNR toks = toRPN toks) ∧
    (∀ (rpn : List Tok) (env : Nat → Bool), evalRPNR rpn env = evalRPN rpn env) :=
  ⟨fun expr => tokenizeAuxR_eq (expr.toList.filter (fun c => !c.isWhitespace)) 0,
   fun toks => toRPNAuxR_eq toks [] [],
   fun rpn env => evalAuxR_eq rpn env []⟩

/-- Every error the tokenizer raises identifies the offending position (its
two messages interpolate the index `i`). -/
theorem tokenizeAux_error_pos_aux :
    ∀ (n : Nat) (cs : List Char), cs.length ≤ n → ∀ (i : Nat) (e : ParseErr),
      tokenizeAux cs i = .error e → errHasPos e = true := by
  intro n
  induction n with
  | zero =>
    intro cs hlen i e h
    cases cs with
    | nil => simp [tokenizeAux] at h
    | cons c rest => simp at hlen
  | succ n ihn =>
    intro cs hlen i e h
    cases cs with
    | nil => simp [tokenizeAux] at h
    | cons c rest =>
      rw [tokenizeAux.eq_def] at h
      dsimp only at h
      have hr : rest.length ≤ n := by simp at hlen; omega
      split_ifs at h
      · cases hrec : tokenizeAux rest (i + 1) with
        | ok l => rw [hrec] at h; simp [Except.map] at h
        | error e2 =>
          rw [hrec] at h
          simp only [Except.map] at h
          injection h with h2
          subst h2
          exact ihn rest hr (i + 1) e2 hrec
      · cases hrec : tokenizeAux rest (i + 1) with
        | ok l => rw [hrec] at h; simp [Except.map] at h
        | error e2 =>
          rw [hrec] at h
          simp only [Except.map] at h
          injection h with h2
          subst h2
          exact ihn rest hr (i + 1) e2 hrec
      · cases hrec : tokenizeAux rest (i + 1) with
        | ok l => rw [hrec] at h; simp [Except.map] at h
        | error e2 =>
          rw [hrec] at h
          simp only [Except.map] at h
          injection h with h2
          subst h2
          exact ihn rest hr (i + 1) e2 hrec
      · cases hrec : tokenizeAux rest (i + 1) with
        | ok l => rw [hrec] at h; simp [Except.map] at h
        | error e2 =>
          rw [hrec] at h
          simp only [Except.map] at h
          injection h with h2
          subst h2
          exact ihn rest hr (i + 1) e2 hrec
      · cases hrec : tokenizeAux rest (i + 1) with
        | ok l => rw [hrec] at h; simp [Except.map] at h
        | error e2 =>
          rw [hrec] at h
          simp only [Except.map] at h
          injection h with h2
          subst h2
          exact ihn rest hr (i + 1) e2 hrec
      · cases rest with
        | nil =>
          injection h with h2
          subst h2
          rfl
        | cons d rest2 =>
          dsimp only at h
          have hr2 : rest2.length ≤ n := by simp at hlen; omega
          split_ifs at h
          · cases hrec : tokenizeAux rest2 (i + 2) with
            | ok l => rw [hrec] at h; simp [Except.map] at h
            | error e2 =>
              rw [hrec] at h
              simp only [Except.map] at h
              injection h with h2
              subst h2
              exact ihn rest2 hr2 (i + 2) e2 hrec
          · injection h with h2
            subst h2
            rfl
      · injection h with h2
        subst h2
        rfl

/-- All `tokenize` errors identify the offending position. -/
theorem tokenize_error_pos (expr : String) (e : ParseErr)
    (h : tokenize expr = .error e) : errHasPos e = true :=
  tokenizeAux_error_pos_aux _ _ le_rfl 0 e h

/-- The only error the final drain raises is `Unbalanced parentheses`. -/
theorem drainOps_error :
    ∀ (op out : List Tok) (e : ParseErr),
      drainOps op out = .error e → e = .unbalanced := by
  intro op
  induction op with
  | nil => intro out e h; simp [drainOps] at h
  | cons top restOp ih =>
    intro out e h
    rw [drainOps] at h
    split_ifs at h
    · injection h with h2; exact h2.symm
    · exact ih (out ++ [top]) e h

/-- The only error `toRPN` raises is `Unbalanced parentheses`. -/
theorem toRPNAux_error_unbalanced :
    ∀ (toks out op : List Tok) (e : ParseErr),
      toRPNAux toks out op = .error e → e = .unbalanced := by
  intro toks
  induction toks with
  | nil => intro out op e h; exact drainOps_error op out e h
  | cons tk rest ih =>
    intro out op e h
    cases tk with
    | var v =>
      simp only [toRPNAux] at h
      exact ih _ _ e h
    | lp =>
      simp only [toRPNAux] at h
      exact ih _ _ e h
    | rp =>
      simp only [toRPNAux] at h
      cases hp : popToLP op out with
      | none => rw [hp] at h; injection h with h2; exact h2.symm
      | some pr =>
        rw [hp] at h
        obtain ⟨out2, op2⟩ := pr
        exact ih _ _ e h
    | not =>
      simp only [toRPNAux] at h
      cases hp : popOps Tok.not op out with
      | mk out2 op2 =>
        rw [hp] at h
        exact ih _ _ e h
    | and =>
      simp only [toRPNAux] at h
      cases hp : popOps Tok.and op out with
      | mk out2 op2 =>
        rw [hp] at h
        exact ih _ _ e h
    | or =>
      simp only [toRPNAux] at h
      cases hp : popOps Tok.or op out with
      | mk out2 op2 =>
        rw [hp] at h
        exact ih _ _ e h

/-- No error the RPN evaluator raises identifies a position (`Parse error`
and `Unknown token` carry none). -/
theorem evalAux_error_nopos :
    ∀ (rpn : List Tok) (env : Nat → Bool) (st : List Bool) (e : ParseErr),
      evalAux rpn env st = .error e → errHasPos e = false := by
  intro rpn
  induction rpn with
  | nil =>
    intro env st e h
    match st with
    | [] => injection h with h2; subst h2; rfl
    | [b] => simp [evalAux] at h
    | a :: b :: s => injection h with h2; subst h2; rfl
  | cons tk rest ih =>
    intro env st e h
    cases tk with
    | var v => exact ih env _ e h
    | not =>
      cases st with
      | nil => injection h with h2; subst h2; rfl
      | cons b s => exact ih env _ e h
    | and =>
      match st with
      | [] => injection h with h2; subst h2; rfl
      | [_] => injection h with h2; subst h2; rfl
      | b :: a :: s => exact ih env _ e h
    | or =>
      match st with
      | [] => injection h with h2; subst h2; rfl
      | [_] => injection h with h2; subst h2; rfl
      | b :: a :: s => exact ih env _ e h
    | lp => injection h with h2; subst h2; rfl
    | rp => injection h with h2; subst h2; rfl

/-- The operator-case pop never pops a `(` and never introduces tokens, so it
preserves the number of `(` on the stack and freeness of `)`. -/
theorem popOps_op_facts (tk : Tok) :
    ∀ (op out : List Tok),
      (popOps tk op out).2.count Tok.lp = op.count Tok.lp ∧
      (Tok.rp ∉ op → Tok.rp ∉ (popOps tk op out).2) := by
  intro op
  induction op with
  | nil => intro out; exact ⟨rfl, fun _ => List.not_mem_nil _⟩
  | cons top restOp ih =>
    intro out
    rw [popOps]
    split_ifs with h1 h2
    · exact ⟨rfl, fun h => h⟩
    · obtain ⟨hc, hr⟩ := ih (out ++ [top])
      constructor
      · rw [hc, List.count_cons]
        simp [Ne.symm h1, h1]
      · intro hmem
        exact hr (fun hcon => hmem (List.mem_cons_of_mem _ hcon))
    · exact ⟨rfl, fun h => h⟩

/-- With no `(` on the stack, the `)` case pops to exhaustion and fails. -/
theorem popToLP_none :
    ∀ (op out : List Tok), op.count Tok.lp = 0 → popToLP op out = none := by
  intro op
  induction op with
  | nil => intro out _; rfl
  | cons top restOp ih =>
    intro out hc
    rw [List.count_cons] at hc
    rw [popToLP]
    split_ifs with h1
    · subst h1; simp at hc
    · exact ih (out ++ [top]) (by omega)

/-- With at least one `(` on the stack, the `)` case succeeds and consumes
exactly one `(`, preserving freeness of `)`. -/
theorem popToLP_some :
    ∀ (op out : List Tok), 0 < op.count Tok.lp →
      ∃ out2 op2, popToLP op out = some (out2, op2) ∧
        op2.count Tok.lp + 1 = op.count Tok.lp ∧
        (Tok.rp ∉ op → Tok.rp ∉ op2) := by
  intro op
  induction op with
  | nil => intro out hc; simp at hc
  | cons top restOp ih =>
    intro out hc
    rw [popToLP]
    split_ifs with h1
    · subst h1
      refine ⟨out, restOp, rfl, ?_, ?_⟩
      · rw [List.count_cons]; simp
      · intro hmem hcon
        exact hmem (List.mem_cons_of_mem _ hcon)
    · rw [List.count_cons] at hc
      have hc2 : 0 < restOp.count Tok.lp := by
        by_cases htop : top = Tok.lp
        · exact absurd htop h1
        · simpa [htop] using hc
      obtain ⟨out2, op2, heq, hcnt, hrp⟩ := ih (out ++ [top]) hc2
      refine ⟨out2, op2, heq, ?_, ?_⟩
      · rw [List.count_cons]
        simp [h1]
        omega
      · intro hmem
        exact hrp (fun hcon => hmem (List.mem_cons_of_mem _ hcon))

/-- The final drain succeeds exactly when no `(` remains (assuming no `)` is
on the stack, which `toRPN` maintains since `)` is never pushed). -/
theorem drainOps_isOk :
    ∀ (op out : List Tok), Tok.rp ∉ op →
      (drainOps op out).isOk = (op.count Tok.lp == 0) := by
  intro op
  induction op with
  | nil => intro out _; rfl
  | cons top restOp ih =>
    intro out hrp
    rw [drainOps]
    split_ifs with h1
    · rcases h1 with h1 | h1
      · subst h1
        simp [Except.isOk, Except.toBool, List.count_cons]
      · exact absurd (h1 ▸ List.mem_cons_self top restOp) hrp
    · push_neg at h1
      obtain ⟨hlp, _⟩ := h1
      rw [ih (out ++ [top]) (fun hc => hrp (List.mem_cons_of_mem _ hc))]
      rw [List.count_cons]
      simp [hlp]

/-- The main loop of `toRPN` succeeds exactly when the remaining token stream is
balanced relative to the `(` currently on the stack. -/
theorem toRPNAux_isOk :
    ∀ (toks out op : List Tok), Tok.rp ∉ op →
      (toRPNAux toks out op).isOk = parensOk toks (op.count Tok.lp) := by
  intro toks
  induction toks with
  | nil => intro out op hrp; exact drainOps_isOk op out hrp
  | cons tk rest ih =>
    intro out op hrp
    cases tk with
    | var v =>
      simp only [toRPNAux, parensOk]
      exact ih _ op hrp
    | lp =>
      simp only [toRPNAux, parensOk]
      rw [ih _ (Tok.lp :: op) (by simp [hrp]), List.count_cons]
      simp
    | rp =>
      simp only [toRPNAux, parensOk]
      cases hc : op.count Tok.lp with
      | zero =>
        rw [popToLP_none op out hc]
        rfl
      | succ d =>
        obtain ⟨out2, op2, heq, hcnt, hrp2⟩ := popToLP_some op out (by omega)
        rw [heq]
        have : op2.count Tok.lp = d := by omega
        rw [ih out2 op2 (hrp2 hrp), this]
    | not =>
      simp only [toRPNAux, parensOk]
      obtain ⟨hc, hrpf⟩ := popOps_op_facts Tok.not op out
      cases hp : popOps Tok.not op out with
      | mk out2 op2 =>
        rw [hp] at hc hrpf
        rw [ih out2 (Tok.not :: op2) (by simp [hrpf hrp]), List.count_cons]
        simp [hc]
    | and =>
      simp only [toRPNAux, parensOk]
      obtain ⟨hc, hrpf⟩ := popOps_op_facts Tok.and op out
      cases hp : popOps Tok.and op out with
      | mk out2 op2 =>
        rw [hp] at hc hrpf
        rw [ih out2 (Tok.and :: op2) (by simp [hrpf hrp]), List.count_cons]
        simp [hc]
    | or =>
      simp only [toRPNAux, parensOk]
      obtain ⟨hc, hrpf⟩ := popOps_op_facts Tok.or op out
      cases hp : popOps Tok.or op out with
      | mk out2 op2 =>
        rw [hp] at hc hrpf
        rw [ih out2 (Tok.or :: op2) (by simp [hrpf hrp]), List.count_cons]
        simp [hc]

/-- C3 counterexample: on the malformed input `(x1` (unbalanced parentheses)
parsing fails as claimed, but the raised error — `Unbalanced parentheses` —
does not identify any offending position; likewise the dangling-operator
error `Parse error` raised when evaluating `x1 &` carries no position. -/
theorem sat_parse_error_position_cex :
    tokenize ("(x1") = .ok [Tok.lp, Tok.var 1] ∧
    toRPN [Tok.lp, Tok.var 1] = .error .unbalanced ∧
    errHasPos .unbalanced = false ∧
    tokenize ("x1 &") = .ok [Tok.var 1, Tok.and] ∧
    evalRPN [Tok.var 1, Tok.and] (fun _ => false) = .error .stackErr ∧
    errHasPos .stackErr = false :=
  ⟨rfl, rfl, rfl, rfl, rfl, rfl⟩

/-- C3 amended: every malformed input fails with an error, but only the
tokenizer errors (invalid variable, unexpected character) identify the
offending position; the unbalanced-parentheses error raised by `toRPN` and
the dangling-operator / malformed-RPN errors raised by `evalRPN` carry no
position.  `toRPN` succeeds exactly on balanced token streams, so every
unbalanced input does fail. -/
theorem sat_parse_errors_amended :
    (∀ (expr : String) (e : ParseErr),
      tokenize expr = .error e → errHasPos e = true) ∧
    (∀ (toks : List Tok) (e : ParseErr),
      toRPN toks = .error e → e = .unbalanced ∧ errHasPos e = false) ∧
    (∀ (rpn : List Tok) (env : Nat → Bool) (e : ParseErr),
      evalRPN rpn env = .error e → errHasPos e = false) ∧
    (∀ toks : List Tok, (toRPN toks).isOk = parensOk toks 0) := by
  refine ⟨tokenize_error_pos, ?_, ?_, ?_⟩
  · intro toks e h
    have he := toRPNAux_error_unbalanced toks [] [] e h
    subst he
    exact ⟨rfl, rfl⟩
  · intro rpn env e h
    exact evalAux_error_nopos rpn env [] e h
  · intro toks
    have := toRPNAux_isOk toks [] [] (List.not_mem_nil _)
    simpa using this

/-- Witness for the amended C3 theorem: the invalid-variable error raised on
`xz` carries its position. -/
theorem sat_parse_errors_amended_witness :
    errHasPos (ParseErr.invalidVar 0) = true :=
  sat_parse_errors_amended.1 ("xz") (ParseErr.invalidVar 0) rfl

/-- Witness for the amended C2 theorem at the `No solution` preset. -/
theorem subsetsum_budget_conflated_witness :
    backtrack (fun _ => true) [5, 7, 11] 3 = none ∧
    ssMessage (backtrack (fun _ => true) [5, 7, 11] 3) =
      ssMessage (backtrack (fun _ => false) [5, 7, 11] 3) :=
  subsetsum_budget_conflated [5, 7, 11] 3

/-- Witness for C10 at a concrete expression. -/
theorem sat_pipeline_copies_equivalent_witness :
    tokenizeR ("(x1) & (!x1)") = tokenize ("(x1) & (!x1)") :=
  sat_pipeline_copies_equivalent.1 ("(x1) & (!x1)")

end PvNP
